import Mathlib

/-!
Verification of the CodeQL database build/cleanup extension
(src/extension.js and src/unnamed/part_000).

The development shallowly embeds the logic of the two JavaScript variants:

* Node's POSIX `path` functions (`isAbsolute`, `resolve`, `join`) are
  modelled over `String` via explicit character-list splitting and
  segment normalization.
* The filesystem is a finite tree (`FsNode`); `readdir`, `lstat`,
  `unlink`, `rmdir` become operations on that tree.  Directories carry a
  `readable` flag so that a failing `readdir` (EACCES / missing dir) can
  be expressed.
* Promises that a function may reject are embedded as `Except JsErr`;
  a `try/catch` in the source becomes a `match` on that `Except`.
-/

set_option linter.unusedVariables false

namespace CodeqlPlayground

/-- Error kinds of the workflow (spec §7). `invalidPath` is the
`Error('Invalid path')` thrown by `sanitizePath`; `toolError` stands for a
rejection coming from the external process invocation. -/
inductive JsErr where
  | invalidPath : JsErr
  | toolError : JsErr
deriving DecidableEq

/-- `path.isAbsolute` (POSIX): the path starts with a slash. -/
def pathIsAbsolute (p : String) : Bool :=
  match p.data with
  | [] => false
  | c :: _ => c == '/'

/-- Split a character list on a separator character, keeping empty words
(used both for `/`-separated path segments and for the shell's
space-based field splitting). -/
def splitOnChar (sep : Char) : List Char → List (List Char)
  | [] => [[]]
  | c :: cs =>
    match splitOnChar sep cs with
    | [] => [[c]]
    | w :: ws => if c = sep then [] :: w :: ws else (c :: w) :: ws

theorem splitOnChar_ne_nil (sep : Char) (cs : List Char) :
    splitOnChar sep cs ≠ [] := by
  induction cs with
  | nil => simp [splitOnChar]
  | cons c cs ih =>
    cases h : splitOnChar sep cs with
    | nil => exact absurd h ih
    | cons w ws =>
      simp only [splitOnChar, h]
      split <;> simp

theorem splitOnChar_no_sep (sep : Char) (cs : List Char) :
    ∀ w ∈ splitOnChar sep cs, sep ∉ w := by
  induction cs with
  | nil => intro w hw; simp [splitOnChar] at hw; simp [hw]
  | cons c cs ih =>
    intro w hw
    cases h : splitOnChar sep cs with
    | nil => exact absurd h (splitOnChar_ne_nil sep cs)
    | cons v vs =>
      simp only [splitOnChar, h] at hw
      by_cases hc : c = sep
      · rw [if_pos hc] at hw
        rcases List.mem_cons.mp hw with hw | hw
        · subst hw; simp
        · exact ih w (h ▸ hw)
      · rw [if_neg hc] at hw
        rcases List.mem_cons.mp hw with hw | hw
        · subst hw
          intro hmem
          rcases List.mem_cons.mp hmem with h1 | h1
          · exact hc h1.symm
          · exact ih v (h ▸ List.mem_cons_self v vs) h1
        · exact ih w (h ▸ List.mem_cons_of_mem v hw)

theorem splitOnChar_word (sep : Char) (w : List Char) (h : sep ∉ w) :
    splitOnChar sep w = [w] := by
  induction w with
  | nil => simp [splitOnChar]
  | cons c cs ih =>
    have hc : c ≠ sep := fun hcc => h (hcc ▸ List.mem_cons_self c cs)
    have hcs : sep ∉ cs := fun hm => h (List.mem_cons_of_mem c hm)
    simp [splitOnChar, ih hcs, hc]

theorem splitOnChar_word_append (sep : Char) (a b : List Char) (h : sep ∉ a) :
    splitOnChar sep (a ++ sep :: b) = a :: splitOnChar sep b := by
  induction a with
  | nil =>
    simp only [List.nil_append, splitOnChar]
    match hb : splitOnChar sep b with
    | [] => exact absurd hb (splitOnChar_ne_nil sep b)
    | w :: ws => simp
  | cons c cs ih =>
    have hc : c ≠ sep := fun hcc => h (hcc ▸ List.mem_cons_self c cs)
    have hcs : sep ∉ cs := fun hm => h (List.mem_cons_of_mem c hm)
    simp only [List.cons_append, splitOnChar]
    rw [show splitOnChar sep (cs.append (sep :: b)) = cs :: splitOnChar sep b from ih hcs]
    simp [hc]

/-- The character data of a string append is the append of the data. -/
theorem strData_append (a b : String) : (a ++ b).data = a.data ++ b.data := rfl

/-- Path segments of a string: split on `/` and drop empty segments
(this is how Node's `path` normalizes repeated and trailing slashes). -/
def segsOf (s : String) : List String :=
  ((splitOnChar '/' s.data).filter (fun w => w ≠ [])).map (fun w => ⟨w⟩)

/-- A well-formed path segment: nonempty and containing no slash. -/
def validSeg (s : String) : Bool :=
  s.data ≠ [] && decide ('/' ∉ s.data)

theorem segsOf_validSeg (s : String) : ∀ t ∈ segsOf s, validSeg t = true := by
  intro t ht
  simp only [segsOf, List.mem_map, List.mem_filter] at ht
  obtain ⟨w, ⟨hmem, hne⟩, hw⟩ := ht
  have hns : '/' ∉ w := splitOnChar_no_sep '/' s.data w hmem
  subst hw
  simp only [validSeg, Bool.and_eq_true, decide_eq_true_eq]
  exact ⟨by simpa using hne, hns⟩

/-- Normalization of the segments of an absolute path: `.` is dropped,
`..` pops the previous segment (at the root it is dropped). -/
def normAbs (segs : List String) : List String :=
  segs.foldl
    (fun st seg =>
      if seg = "." then st
      else if seg = ".." then st.dropLast
      else st ++ [seg]) []

/-- Normalization of the segments of a relative path: like `normAbs`, but
leading `..` segments are kept (there is nothing to pop). -/
def normRelStep (st : List String) (seg : String) : List String :=
  if seg = "." then st
  else if seg = ".." then
    if st.getLast? = some ".." ∨ st = [] then st ++ [seg]
    else st.dropLast
  else st ++ [seg]

def normRel (segs : List String) : List String :=
  segs.foldl normRelStep []

/-- Render a segment list with `/` separators (no leading slash). -/
def joinSegs : List String → String
  | [] => ""
  | [s] => s
  | s :: t :: rest => s ++ "/" ++ joinSegs (t :: rest)

/-- `path.resolve` / `path.normalize` of an absolute path: normalize the
segments and put the leading slash back (trailing slash is dropped,
matching `path.resolve`). -/
def pathResolveAbs (p : String) : String :=
  "/" ++ joinSegs (normAbs (segsOf p))

/-- `path.resolve(p)` against a current working directory `cwd`: an
absolute path is normalized, a relative one is resolved under `cwd`. -/
def pathResolve (cwd p : String) : String :=
  if pathIsAbsolute p then pathResolveAbs p
  else pathResolveAbs (cwd ++ "/" ++ p)

/-- `path.normalize` of a relative path (never produces a leading slash). -/
def pathNormalizeRel (p : String) : String :=
  match normRel (segsOf p) with
  | [] => "."
  | s :: rest => joinSegs (s :: rest)

/-- `path.join(d, n)`: concatenate with a slash and normalize; an absolute
`d` yields an absolute result, a relative `d` a relative one. -/
def pathJoin (d n : String) : String :=
  if pathIsAbsolute d then pathResolveAbs (d ++ "/" ++ n)
  else pathNormalizeRel (d ++ "/" ++ n)

/-- `sanitizePath` (src/extension.js lines 143-150, src/unnamed/part_000
lines 166-173): resolve the input; return it unchanged when it is already
absolute and equal to its own resolution, otherwise throw
`Error('Invalid path')`. -/
def sanitizePath (cwd inputPath : String) : Except JsErr String :=
  let absolutePath := pathResolve cwd inputPath
  if pathIsAbsolute inputPath = true ∧ inputPath = absolutePath then
    Except.ok absolutePath
  else
    Except.error JsErr.invalidPath

theorem sanitizePath_ok_iff (cwd p q : String) :
    sanitizePath cwd p = Except.ok q ↔
      (pathIsAbsolute p = true ∧ p = pathResolve cwd p ∧ q = p) := by
  by_cases h : pathIsAbsolute p = true ∧ p = pathResolve cwd p
  · simp only [sanitizePath, if_pos h, Except.ok.injEq]
    constructor
    · intro hq; exact ⟨h.1, h.2, by rw [← hq, ← h.2]⟩
    · intro ⟨_, h2, hq⟩; rw [hq, ← h2]
  · simp only [sanitizePath, if_neg h, reduceCtorEq, false_iff]
    intro ⟨h1, h2, _⟩
    exact h ⟨h1, h2⟩

theorem sanitizePath_not_abs (cwd p : String) (h : pathIsAbsolute p = false) :
    sanitizePath cwd p = Except.error JsErr.invalidPath := by
  have hn : ¬(pathIsAbsolute p = true ∧ p = pathResolve cwd p) := by
    intro hc; rw [hc.1] at h; cases h
  simp only [sanitizePath, if_neg hn]

theorem sanitizePath_not_resolved (cwd p : String) (h : p ≠ pathResolve cwd p) :
    sanitizePath cwd p = Except.error JsErr.invalidPath := by
  have hn : ¬(pathIsAbsolute p = true ∧ p = pathResolve cwd p) := by
    intro hc; exact h hc.2
  simp only [sanitizePath, if_neg hn]

theorem pathIsAbsolute_slash_append (x : String) :
    pathIsAbsolute ("/" ++ x) = true := by
  have hd : ("/" ++ x).data = '/' :: x.data := by
    rw [strData_append]; rfl
  simp [pathIsAbsolute, hd]

theorem pathResolveAbs_isAbs (p : String) :
    pathIsAbsolute (pathResolveAbs p) = true := by
  unfold pathResolveAbs
  exact pathIsAbsolute_slash_append _

theorem pathResolve_isAbs (cwd p : String) :
    pathIsAbsolute (pathResolve cwd p) = true := by
  unfold pathResolve
  split <;> exact pathResolveAbs_isAbs _

theorem validSeg_dotdot : validSeg ".." = true := by decide

theorem normRelStep_validSeg (st : List String) (seg : String)
    (hst : ∀ s ∈ st, validSeg s = true) (hseg : validSeg seg = true) :
    ∀ s ∈ normRelStep st seg, validSeg s = true := by
  intro s hs
  by_cases h1 : seg = "."
  · simp only [normRelStep, if_pos h1] at hs
    exact hst s hs
  · by_cases h2 : seg = ".."
    · simp only [normRelStep, if_neg h1, if_pos h2] at hs
      by_cases h3 : st.getLast? = some ".." ∨ st = []
      · rw [if_pos h3] at hs
        rcases List.mem_append.mp hs with h4 | h4
        · exact hst s h4
        · simp at h4; subst h4; exact hseg
      · rw [if_neg h3] at hs
        exact hst s (List.dropLast_sublist st |>.subset hs)
    · simp only [normRelStep, if_neg h1, if_neg h2] at hs
      rcases List.mem_append.mp hs with h4 | h4
      · exact hst s h4
      · simp at h4; subst h4; exact hseg

theorem normRel_validSeg_aux (segs : List String) (st : List String)
    (hst : ∀ s ∈ st, validSeg s = true)
    (hsegs : ∀ s ∈ segs, validSeg s = true) :
    ∀ s ∈ List.foldl normRelStep st segs, validSeg s = true := by
  induction segs generalizing st with
  | nil => simpa using hst
  | cons a segs ih =>
    simp only [List.foldl_cons]
    exact ih (normRelStep st a)
      (normRelStep_validSeg st a hst (hsegs a (List.mem_cons_self a segs)))
      (fun s hs => hsegs s (List.mem_cons_of_mem a hs))

theorem normRel_validSeg (segs : List String)
    (hsegs : ∀ s ∈ segs, validSeg s = true) :
    ∀ s ∈ normRel segs, validSeg s = true :=
  normRel_validSeg_aux segs [] (by simp) hsegs

theorem pathIsAbsolute_validSeg_append (s r : String) (h : validSeg s = true) :
    pathIsAbsolute (s ++ r) = false := by
  simp only [validSeg, Bool.and_eq_true, decide_eq_true_eq] at h
  obtain ⟨hne, hns⟩ := h
  match hd : s.data with
  | [] => exact absurd hd hne
  | c :: cs =>
    have hc : c ≠ '/' := fun hcc => hns (hd ▸ hcc ▸ List.mem_cons_self c cs)
    have hdata : (s ++ r).data = c :: (cs ++ r.data) := by rw [strData_append, hd]; rfl
    simp [pathIsAbsolute, hdata, hc]

theorem joinSegs_not_abs (segs : List String)
    (h : ∀ s ∈ segs, validSeg s = true) :
    pathIsAbsolute (joinSegs segs) = false := by
  match segs with
  | [] => decide
  | [s] =>
    have hs := h s (by simp)
    have h2 := pathIsAbsolute_validSeg_append s "" hs
    have he : s ++ "" = s := by
      apply String.ext
      rw [strData_append]
      exact List.append_nil _
    rw [he] at h2
    simpa [joinSegs] using h2
  | s :: t :: rest =>
    have hs := h s (by simp)
    simp only [joinSegs]
    have : s ++ "/" ++ joinSegs (t :: rest) = s ++ ("/" ++ joinSegs (t :: rest)) := by
      rw [String.append_assoc]
    rw [this]
    exact pathIsAbsolute_validSeg_append s _ hs

theorem pathNormalizeRel_not_abs (p : String) :
    pathIsAbsolute (pathNormalizeRel p) = false := by
  unfold pathNormalizeRel
  have hv := normRel_validSeg (segsOf p) (segsOf_validSeg p)
  match hn : normRel (segsOf p) with
  | [] => decide
  | s :: rest =>
    exact joinSegs_not_abs (s :: rest) (fun t ht => hv t (hn ▸ ht))

theorem pathJoin_rel_not_abs (d n : String) (h : pathIsAbsolute d = false) :
    pathIsAbsolute (pathJoin d n) = false := by
  unfold pathJoin
  rw [if_neg (by simp [h])]
  exact pathNormalizeRel_not_abs _

theorem pathJoin_abs_isAbs (d n : String) (h : pathIsAbsolute d = true) :
    pathIsAbsolute (pathJoin d n) = true := by
  unfold pathJoin
  rw [if_pos h]
  exact pathResolveAbs_isAbs _

/-- If `path.join(s, x)` passes sanitization then `s` was absolute
(joining never turns a relative path into an absolute one). -/
theorem sanitize_join_ok_base_abs (cwd s x db : String)
    (h : sanitizePath cwd (pathJoin s x) = Except.ok db) :
    pathIsAbsolute s = true ∧ pathIsAbsolute db = true := by
  obtain ⟨h1, h2, h3⟩ := (sanitizePath_ok_iff cwd (pathJoin s x) db).mp h
  constructor
  · by_contra hb
    have : pathIsAbsolute s = false := by
      cases hh : pathIsAbsolute s
      · rfl
      · exact absurd hh hb
    rw [pathJoin_rel_not_abs s x this] at h1
    cases h1
  · rw [h3]; exact h1

/-! ## Filesystem model -/

/-- A node of the filesystem tree.  A directory carries a `readable`
flag: `fs.promises.readdir` on an unreadable (or otherwise unlistable)
directory rejects, which models the "missing directory / permission
denied" listing failures the cleanup code catches. -/
inductive FsNode where
  | file : FsNode
  | dir (readable : Bool) (children : List (String × FsNode)) : FsNode

def FsNode.isDir : FsNode → Bool
  | .file => false
  | .dir _ _ => true

/-- A deletion performed on the filesystem (`fs.promises.unlink` /
`fs.promises.rmdir`), recorded with the path it was applied to. -/
inductive FsOp where
  | unlink (p : String) : FsOp
  | rmdir (p : String) : FsOp
deriving DecidableEq

/-- A name that a real `readdir` can return: nonempty, not `.` or `..`,
and without `/`.  For such a name `path.join(dir, name)` appends exactly
one segment, so `sanitizePath(path.join(dir, name))` succeeds (returning
the joined path) whenever `dir` itself is absolute and normalized; for
any other hypothetical name that sanitize call would throw.  This boolean
guard embeds the `await sanitizePath(path.join(folderPath, file))` of
`cleanupDbFolder`. -/
def validName (n : String) : Bool :=
  validSeg n && !(n = ".") && !(n = "..")

def lookupChild : List (String × FsNode) → String → Option FsNode
  | [], _ => none
  | (n, c) :: rest, s => if n = s then some c else lookupChild rest s

def findNode : FsNode → List String → Option FsNode
  | n, [] => some n
  | .file, _ :: _ => none
  | .dir _ ch, s :: rest =>
    match lookupChild ch s with
    | some c => findNode c rest
    | none => none

mutual

def replaceNode (root : FsNode) (segs : List String) (nv : FsNode) : FsNode :=
  match segs, root with
  | [], _ => nv
  | _ :: _, .file => .file
  | s :: rest, .dir r ch => .dir r (replaceInList s rest nv ch)

def replaceInList (s : String) (rest : List String) (nv : FsNode) :
    List (String × FsNode) → List (String × FsNode)
  | [] => []
  | (n, c) :: tail =>
    if n = s then (n, replaceNode c rest nv) :: replaceInList s rest nv tail
    else (n, c) :: replaceInList s rest nv tail

end

/-! ## The Stale Artifact Reaper (`cleanupOldDb` / `cleanupDbFolder`) -/

mutual

/-- `cleanupDbFolder` (src/extension.js lines 103-120, identical in
src/unnamed/part_000 lines 102-119): list the folder, delete each child
(recursing into directories, unlinking files), then `rmdir` the
now-empty folder; every error is caught (and logged) at this level.  The
result is `none` when the folder was completely removed (`rmdir`
succeeded) or `some` of the remaining partial node when a step failed and
the `catch` swallowed the error; the trace records the deletions
performed, in order. -/
def cleanupDbFolder (p : String) : FsNode → Option FsNode × List FsOp
  | .file => (some .file, [])
  | .dir readable children =>
    if readable then
      match cleanupDbFolderLoop p children with
      | (rem, true, ops) =>
        if rem.isEmpty then (none, ops ++ [FsOp.rmdir p])
        else (some (.dir readable rem), ops)
      | (rem, false, ops) => (some (.dir readable rem), ops)
    else (some (.dir readable children), [])

/-- The `for (const file of files)` loop of `cleanupDbFolder`: returns the
children that remain, whether the loop ran to completion (`false` when
the `sanitizePath` of a child path threw, aborting the loop), and the
deletion trace. -/
def cleanupDbFolderLoop (p : String) :
    List (String × FsNode) → List (String × FsNode) × Bool × List FsOp
  | [] => ([], true, [])
  | (name, node) :: rest =>
    if validName name then
      match node with
      | .file =>
        match cleanupDbFolderLoop p rest with
        | (rem, ok, ops) => (rem, ok, FsOp.unlink (pathJoin p name) :: ops)
      | .dir r sub =>
        match cleanupDbFolder (pathJoin p name) (.dir r sub) with
        | (none, ops1) =>
          match cleanupDbFolderLoop p rest with
          | (rem, ok, ops2) => (rem, ok, ops1 ++ ops2)
        | (some n', ops1) =>
          match cleanupDbFolderLoop p rest with
          | (rem, ok, ops2) => ((name, n') :: rem, ok, ops1 ++ ops2)
    else ((name, node) :: rest, false, [])

end

/-- The loop of `cleanupOldDb` (src/extension.js lines 84-96): for each
immediate child, `lstat` it and recursively delete it via
`cleanupDbFolder` when it is a directory whose name starts with
`sample_`; every other child is left alone.  `cleanupDbFolder` never
rejects (it catches internally), so this loop always runs to the end. -/
def cleanupOldDbLoop (sp : String) : List (String × FsNode) → List (String × FsNode)
  | [] => []
  | (name, node) :: rest =>
    if node.isDir && name.startsWith "sample_" then
      match cleanupDbFolder (pathJoin sp name) node with
      | (none, _) => cleanupOldDbLoop sp rest
      | (some n', _) => (name, n') :: cleanupOldDbLoop sp rest
    else (name, node) :: cleanupOldDbLoop sp rest

/-- `cleanupOldDb` (src/extension.js lines 72-101): sanitize the folder
path, list it, and run the loop above; the surrounding `try/catch` logs
any error (sanitize failure or listing failure) and returns normally, so
the returned promise never rejects — hence the `Except` component is
`ok` in every branch. -/
def cleanupOldDb (cwd : String) (fs : FsNode) (folderPath : String) :
    Except JsErr Unit × FsNode :=
  match sanitizePath cwd folderPath with
  | .error _ => (Except.ok (), fs)
  | .ok sp =>
    match findNode fs (segsOf sp) with
    | some (.dir true ch) =>
      (Except.ok (), replaceNode fs (segsOf sp) (.dir true (cleanupOldDbLoop sp ch)))
    | _ => (Except.ok (), fs)

/-! ## The Database Builder (`updateDb` and the external command) -/

/-- Outcome of the external process: it either spawned and exited with a
code, or failed to spawn at all. -/
inductive ProcOutcome where
  | exited (code : Int) : ProcOutcome
  | spawnError : ProcOutcome

/-- `executeCommand` (src/extension.js lines 122-141).  Node fires the
child's `exit` event before the `execFile` callback (the callback runs on
`close`, after `exit`), and a promise keeps its first settlement.  So
when the process spawns and exits — with any code, zero or not — the
`.on('exit')` handler resolves the promise with that code, and the
callback's later `reject(error)` for a nonzero exit is ignored.  Only a
spawn failure (no `exit` event) rejects, through the callback's error
argument. -/
def executeCommand : ProcOutcome → Except JsErr Int
  | .exited code => .ok code
  | .spawnError => .error .toolError

/-- JavaScript truthiness of the optional `command` string: `undefined`
and the empty string are falsy. -/
def jsTruthy : Option String → Bool
  | none => false
  | some s => s ≠ ""

/-- The argument vector built by `updateDb` (src/extension.js lines
57-62). -/
def updateDbCmdArgs (database language sourceRoot : String)
    (command : Option String) : List String :=
  if jsTruthy command then
    ["codeql", "database", "create", database, "--language=" ++ language,
     "--source-root", sourceRoot, "--command", command.getD "", "--overwrite"]
  else
    ["codeql", "database", "create", database, "--language=" ++ language,
     "--source-root", sourceRoot, "--build-mode=none", "--overwrite"]

/-- What one run of `updateDb` (src/extension.js lines 52-70) did:
the filesystem after cleanup, the argv of the external command (if
construction was reached), the `loadDatabase` calls made, and the outcome
of the `updateDb` promise. -/
structure UpdateResult where
  fsAfter : FsNode
  cmd : Option (List String)
  registrar : List String
  result : Except JsErr Unit

/-- `updateDb` (src/extension.js lines 52-70): run the cleanup, sanitize
the fresh database path `sourceRoot/sample_<Date.now()>` (this `await` is
outside any `try`, so its failure rejects `updateDb`), build the argv,
execute it, and on a resolved execution call `loadDatabase`; the
`try/catch` turns an execution rejection into a log entry. -/
def updateDb (cwd : String) (fs : FsNode) (language sourceRoot : String)
    (command : Option String) (now : Nat) (proc : ProcOutcome) : UpdateResult :=
  let fs1 := (cleanupOldDb cwd fs sourceRoot).2
  match sanitizePath cwd (pathJoin sourceRoot ("sample_" ++ toString now)) with
  | .error e =>
    { fsAfter := fs1, cmd := none, registrar := [], result := .error e }
  | .ok database =>
    let c := updateDbCmdArgs database language sourceRoot command
    match executeCommand proc with
    | .error _ =>
      { fsAfter := fs1, cmd := some c, registrar := [], result := .ok () }
    | .ok _ =>
      { fsAfter := fs1, cmd := some c, registrar := [database], result := .ok () }

/-- The command string built by the `updateDb` of src/unnamed/part_000
(lines 57-62), a single shell command line by template-string
concatenation. -/
def updateDbCmdStr (database language sourceRoot : String)
    (command : Option String) : String :=
  if jsTruthy command then
    "codeql database create " ++ database ++ " --language=" ++ language ++
      " --source-root " ++ sourceRoot ++ " --command " ++ command.getD "" ++
      " --overwrite"
  else
    "codeql database create " ++ database ++ " --language=" ++ language ++
      " --source-root " ++ sourceRoot ++ " --build-mode=none --overwrite"

/-- What one run of the part_000 `updateDb` did.  `hangs` is true when no
promise in the chain ever settles, so nothing after `codeqlCmd` runs. -/
structure UpdateResultB where
  fsAfter : FsNode
  cmdStr : Option String
  registrar : List String
  hangs : Bool
  result : Except JsErr Unit

/-- `updateDb` + `codeqlCmd` of src/unnamed/part_000 (lines 52-69 and
121-163).  `codeqlCmd` spawns the concatenated string with a shell.  Its
`exit` listener: code 0 resolves, so `.then(() => loadDatabase(database))`
runs; a nonzero code evaluates the template string
`Command failed with code ...: stderr` where `stderr` is not defined in
that scope, so a ReferenceError is thrown out of the listener before
`reject` is called — the inner promise never settles and the whole chain
hangs.  A spawn error rejects the inner promise, but `codeqlCmd` catches
and merely logs it, returning normally, so `loadDatabase` still runs. -/
def updateDbB (cwd : String) (fs : FsNode) (language sourceRoot : String)
    (command : Option String) (now : Nat) (proc : ProcOutcome) : UpdateResultB :=
  let fs1 := (cleanupOldDb cwd fs sourceRoot).2
  match sanitizePath cwd (pathJoin sourceRoot ("sample_" ++ toString now)) with
  | .error e =>
    { fsAfter := fs1, cmdStr := none, registrar := [], hangs := false,
      result := .error e }
  | .ok database =>
    let c := updateDbCmdStr database language sourceRoot command
    match proc with
    | .exited code =>
      if code = 0 then
        { fsAfter := fs1, cmdStr := some c, registrar := [database],
          hangs := false, result := .ok () }
      else
        { fsAfter := fs1, cmdStr := some c, registrar := [], hangs := true,
          result := .ok () }
    | .spawnError =>
      { fsAfter := fs1, cmdStr := some c, registrar := [database],
        hangs := false, result := .ok () }

/-! ## Delivery of tokens to the external tool -/

/-- `child_process.execFile(cmd[0], cmd.slice(1))` (src/extension.js line
129) hands the program and arguments verbatim to the OS as an argv
vector, with no shell: the tool receives exactly the given tokens. -/
def execFileDelivered (cmd : List String) : List String := cmd

/-- The field splitting `/bin/sh -c <s>` applies to a command string
containing no quoting and no shell metacharacters: the string is cut at
spaces and empty fields vanish.  This models what
`child_process.spawn(cmd, shell true)` (src/unnamed/part_000 line 131)
makes the tool receive for such strings. -/
def shellSplit (s : String) : List String :=
  ((splitOnChar ' ' s.data).filter (fun w => w ≠ [])).map (fun w => ⟨w⟩)

def spawnShellDelivered (s : String) : List String := shellSplit s

/-! ## Well-formed filesystems and the post-order deletion trace -/

mutual

/-- A filesystem subtree as a real disk can present it to this code:
every directory is listable and every entry name is a plain segment. -/
def wellFormed : FsNode → Bool
  | .file => true
  | .dir r ch => r && wellFormedList ch

def wellFormedList : List (String × FsNode) → Bool
  | [] => true
  | (name, node) :: rest => validName name && wellFormed node && wellFormedList rest

end

mutual

/-- The depth-first post-order deletion trace of a subtree rooted at `p`:
all children are deleted first (files by `unlink`), and the directory
itself is removed by `rmdir` only after everything below it. -/
def postOrderOps (p : String) : FsNode → List FsOp
  | .file => [FsOp.unlink p]
  | .dir _ ch => postOrderOpsList p ch ++ [FsOp.rmdir p]

def postOrderOpsList (p : String) : List (String × FsNode) → List FsOp
  | [] => []
  | (name, node) :: rest =>
    postOrderOps (pathJoin p name) node ++ postOrderOpsList p rest

end

theorem wellFormedList_cons (n : String) (c : FsNode)
    (rest : List (String × FsNode)) :
    wellFormedList ((n, c) :: rest) = true ↔
      validName n = true ∧ wellFormed c = true ∧ wellFormedList rest = true := by
  simp [wellFormedList, Bool.and_eq_true, and_assoc]

theorem wellFormedList_mem (ch : List (String × FsNode)) (n : String)
    (c : FsNode) (h : wellFormedList ch = true) (hm : (n, c) ∈ ch) :
    wellFormed c = true := by
  induction ch with
  | nil => cases hm
  | cons hd rest ih =>
    obtain ⟨hn, hc⟩ := hd
    rcases List.mem_cons.mp hm with h1 | h1
    · have h3 : c = hc := congrArg Prod.snd h1
      rw [h3]
      exact ((wellFormedList_cons hn hc rest).mp h).2.1
    · exact ih ((wellFormedList_cons hn hc rest).mp h).2.2 h1

/-- On a well-formed subtree the deletion loop deletes everything,
completes, and its trace is exactly the post-order trace. -/
theorem cleanupDbFolderLoop_wf_aux (n : Nat) :
    ∀ (ch : List (String × FsNode)), sizeOf ch ≤ n →
      wellFormedList ch = true → ∀ p,
        cleanupDbFolderLoop p ch = ([], true, postOrderOpsList p ch) := by
  induction n with
  | zero =>
    intro ch hle
    exfalso
    have : 1 ≤ sizeOf ch := by
      cases ch <;> simp_arith
    omega
  | succ n ih =>
    intro ch hle hwf p
    match ch with
    | [] => simp [cleanupDbFolderLoop, postOrderOpsList]
    | (name, node) :: rest =>
      obtain ⟨h1, h2, h3⟩ := (wellFormedList_cons name node rest).mp hwf
      have hszrest : sizeOf rest ≤ n := by
        have := List.cons.sizeOf_spec (name, node) rest
        have hp : 1 ≤ sizeOf (name, node) := by simp_arith
        omega
      have ihrest := ih rest hszrest h3 p
      match node with
      | .file =>
        simp [cleanupDbFolderLoop, h1, ihrest, postOrderOpsList, postOrderOps]
      | .dir rr sub =>
        have hrr : rr = true := by
          simp [wellFormed, Bool.and_eq_true] at h2; exact h2.1
        have hwfsub : wellFormedList sub = true := by
          simp [wellFormed, Bool.and_eq_true] at h2; exact h2.2
        have hszsub : sizeOf sub ≤ n := by
          have := List.cons.sizeOf_spec (name, FsNode.dir rr sub) rest
          have := Prod.mk.sizeOf_spec name (FsNode.dir rr sub)
          have := FsNode.dir.sizeOf_spec rr sub
          have hp : 0 ≤ sizeOf name := by simp_arith
          omega
        have ihsub := ih sub hszsub hwfsub (pathJoin p name)
        have hfold : cleanupDbFolder (pathJoin p name) (.dir rr sub) =
            (none, postOrderOps (pathJoin p name) (.dir rr sub)) := by
          simp [cleanupDbFolder, hrr, ihsub, postOrderOps]
        simp [cleanupDbFolderLoop, h1, hfold, ihrest, postOrderOpsList]

theorem cleanupDbFolderLoop_wf (p : String) (ch : List (String × FsNode))
    (h : wellFormedList ch = true) :
    cleanupDbFolderLoop p ch = ([], true, postOrderOpsList p ch) :=
  cleanupDbFolderLoop_wf_aux (sizeOf ch) ch le_rfl h p

/-- A well-formed stale directory is removed completely, and its deletion
trace is the depth-first post-order trace. -/
theorem cleanupDbFolder_wf (p : String) (r : Bool)
    (ch : List (String × FsNode)) (h : wellFormed (.dir r ch) = true) :
    cleanupDbFolder p (.dir r ch) = (none, postOrderOps p (.dir r ch)) := by
  have hr : r = true := by
    simp [wellFormed, Bool.and_eq_true] at h; exact h.1
  have hch : wellFormedList ch = true := by
    simp [wellFormed, Bool.and_eq_true] at h; exact h.2
  simp [cleanupDbFolder, hr, cleanupDbFolderLoop_wf p ch hch, postOrderOps]

/-- On a well-formed listing, the top-level loop of `cleanupOldDb` keeps
exactly the entries that are not stale-prefixed directories. -/
theorem cleanupOldDbLoop_wf (sp : String) (ch : List (String × FsNode))
    (h : wellFormedList ch = true) :
    cleanupOldDbLoop sp ch =
      ch.filter (fun nc => !(nc.2.isDir && nc.1.startsWith "sample_")) := by
  induction ch with
  | nil => simp [cleanupOldDbLoop]
  | cons hd rest ih =>
    obtain ⟨name, node⟩ := hd
    obtain ⟨h1, h2, h3⟩ := (wellFormedList_cons name node rest).mp h
    have ihrest := ih h3
    cases hcond : (node.isDir && name.startsWith "sample_") with
    | false =>
      simp [cleanupOldDbLoop, hcond, ihrest, List.filter]
    | true =>
      match node, hcond with
      | .dir rr sub, hcond =>
        have hfold := cleanupDbFolder_wf (pathJoin sp name) rr sub h2
        simp [cleanupOldDbLoop, hcond, hfold, ihrest, List.filter]

/-! ## Claim C2 -/

/-- C2: for every input `p`, `sanitizePath` returns `p` unchanged (as an
absolute path) iff `p` is already absolute and equals its own resolution
against the current working directory; every input that is relative, or
that differs from its resolved form, fails with the invalid-path error. -/
theorem c2_sanitize_unchanged_iff (cwd p : String) :
    (sanitizePath cwd p = Except.ok p ↔
      (pathIsAbsolute p = true ∧ p = pathResolve cwd p)) ∧
    (pathIsAbsolute p = false →
      sanitizePath cwd p = Except.error JsErr.invalidPath) ∧
    (p ≠ pathResolve cwd p →
      sanitizePath cwd p = Except.error JsErr.invalidPath) ∧
    (∀ q, sanitizePath cwd p = Except.ok q → q = p ∧ pathIsAbsolute q = true) := by
  refine ⟨?_, sanitizePath_not_abs cwd p, sanitizePath_not_resolved cwd p, ?_⟩
  · constructor
    · intro h
      have h2 := (sanitizePath_ok_iff cwd p p).mp h
      exact ⟨h2.1, h2.2.1⟩
    · intro h
      exact (sanitizePath_ok_iff cwd p p).mpr ⟨h.1, h.2, rfl⟩
  · intro q hq
    obtain ⟨h1, h2, h3⟩ := (sanitizePath_ok_iff cwd p q).mp hq
    exact ⟨h3, by rw [h3]; exact h1⟩

/-- Witness for C2: a relative input fails, an absolute canonical input is
returned unchanged. -/
theorem c2_sanitize_unchanged_iff_witness :
    (pathIsAbsolute "relative/path" = false ∧
      sanitizePath "/cwd" "relative/path" = Except.error JsErr.invalidPath) ∧
    sanitizePath "/cwd" "/abs/path" = Except.ok "/abs/path" :=
  ⟨⟨by decide,
    (c2_sanitize_unchanged_iff "/cwd" "relative/path").2.1 (by decide)⟩,
   (c2_sanitize_unchanged_iff "/cwd" "/abs/path").1.mpr ⟨by decide, by decide⟩⟩

/-! ## Claim C1 -/

/-- C1: on a source root whose listing is well-formed, `cleanupOldDb`
removes exactly the immediate child directories whose names start with
`sample_` — each deleted depth-first, files unlinked and directories
removed post-order (the `rmdir` of each directory comes after all
operations below it, and the stale root's own `rmdir` is the very last
operation of its trace) — and leaves every other entry untouched; no
other directory is deleted, at any depth. -/
theorem c1_cleanup_removes_exactly_stale (cwd p sp : String) (fs : FsNode)
    (ch : List (String × FsNode))
    (hsan : sanitizePath cwd p = Except.ok sp)
    (hfind : findNode fs (segsOf sp) = some (.dir true ch))
    (hwf : wellFormedList ch = true) :
    cleanupOldDb cwd fs p =
      (Except.ok (), replaceNode fs (segsOf sp)
        (.dir true
          (ch.filter (fun nc => !(nc.2.isDir && nc.1.startsWith "sample_"))))) ∧
    (∀ name rr sub, (name, FsNode.dir rr sub) ∈ ch →
      name.startsWith "sample_" = true →
      cleanupDbFolder (pathJoin sp name) (.dir rr sub) =
        (none, postOrderOps (pathJoin sp name) (.dir rr sub)) ∧
      (postOrderOps (pathJoin sp name) (.dir rr sub)).getLast? =
        some (FsOp.rmdir (pathJoin sp name))) := by
  constructor
  · simp [cleanupOldDb, hsan, hfind, cleanupOldDbLoop_wf sp ch hwf]
  · intro name rr sub hmem hsw
    have hwfsub : wellFormed (.dir rr sub) = true :=
      wellFormedList_mem ch name _ hwf hmem
    refine ⟨cleanupDbFolder_wf (pathJoin sp name) rr sub hwfsub, ?_⟩
    simp [postOrderOps]

/-- The concrete source root of spec §8's scenario: `/proj` contains the
stale `sample_1000` (holding `db.bin`) and the unrelated `other`. -/
def fsExample : FsNode :=
  .dir true [("proj", .dir true
    [("sample_1000", .dir true [("db.bin", .file)]),
     ("other", .dir true [("keep.txt", .file)])])]

def fsExampleProj : List (String × FsNode) :=
  [("sample_1000", .dir true [("db.bin", .file)]),
   ("other", .dir true [("keep.txt", .file)])]

/-- Witness for C1 on the spec §8 scenario tree. -/
theorem c1_cleanup_removes_exactly_stale_witness :
    (sanitizePath "/" "/proj" = Except.ok "/proj" ∧
     findNode fsExample (segsOf "/proj") = some (.dir true fsExampleProj) ∧
     wellFormedList fsExampleProj = true) ∧
    (cleanupOldDb "/" fsExample "/proj" =
      (Except.ok (), replaceNode fsExample (segsOf "/proj")
        (.dir true
          (fsExampleProj.filter
            (fun nc => !(nc.2.isDir && nc.1.startsWith "sample_"))))) ∧
    (∀ name rr sub, (name, FsNode.dir rr sub) ∈ fsExampleProj →
      name.startsWith "sample_" = true →
      cleanupDbFolder (pathJoin "/proj" name) (.dir rr sub) =
        (none, postOrderOps (pathJoin "/proj" name) (.dir rr sub)) ∧
      (postOrderOps (pathJoin "/proj" name) (.dir rr sub)).getLast? =
        some (FsOp.rmdir (pathJoin "/proj" name)))) :=
  ⟨⟨rfl, rfl, by decide⟩,
   c1_cleanup_removes_exactly_stale "/" "/proj" "/proj" fsExample fsExampleProj
     rfl rfl (by decide)⟩

/-! ## Helper lemmas about the constructed command -/

theorem abs_ne_of_not_abs (t u : String) (ht : pathIsAbsolute t = true)
    (hu : pathIsAbsolute u = false) : t ≠ u := by
  intro h
  rw [h] at ht
  rw [ht] at hu
  cases hu

theorem language_flag_ne_command (l : String) :
    "--language=" ++ l ≠ "--command" := by
  intro h
  have hd := congrArg String.data h
  rw [strData_append] at hd
  have hd2 : ('-' :: '-' :: 'l' :: 'a' :: 'n' :: 'g' :: 'u' :: 'a' :: 'g'
        :: 'e' :: '=' :: []) ++ l.data
      = '-' :: '-' :: 'c' :: 'o' :: 'm' :: 'm' :: 'a' :: 'n' :: 'd' :: [] := hd
  simp at hd2

theorem language_flag_ne_buildmode (l : String) :
    "--language=" ++ l ≠ "--build-mode=none" := by
  intro h
  have hd := congrArg String.data h
  rw [strData_append] at hd
  have hd2 : ('-' :: '-' :: 'l' :: 'a' :: 'n' :: 'g' :: 'u' :: 'a' :: 'g'
        :: 'e' :: '=' :: []) ++ l.data
      = '-' :: '-' :: 'b' :: 'u' :: 'i' :: 'l' :: 'd' :: '-' :: 'm' :: 'o'
        :: 'd' :: 'e' :: '=' :: 'n' :: 'o' :: 'n' :: 'e' :: [] := hd
  simp at hd2

/-- The argv `updateDb` hands to `executeCommand` is determined by the
sanitization of the fresh database path alone. -/
theorem updateDb_cmd_eq (cwd : String) (fs : FsNode) (l s : String)
    (command : Option String) (now : Nat) (proc : ProcOutcome) :
    (updateDb cwd fs l s command now proc).cmd =
      match sanitizePath cwd (pathJoin s ("sample_" ++ toString now)) with
      | .error _ => none
      | .ok db => some (updateDbCmdArgs db l s command) := by
  cases hsan : sanitizePath cwd (pathJoin s ("sample_" ++ toString now)) with
  | error e => simp [updateDb, hsan]
  | ok db =>
    cases hex : executeCommand proc with
    | error e => simp [updateDb, hsan, hex]
    | ok c => simp [updateDb, hsan, hex]

/-! ## Claim C3 -/

/-- C3: evaluation of `updateDb` (src/extension.js) at the failing input.
On exit code 0 the build resolves and the Session Registrar is called
exactly once with `sourceRoot/sample_<timestamp>` — the claim's success
half holds.  But on exit code 1 the promise `executeCommand` returns was
already resolved by the `exit` listener (which fires before the
`execFile` callback could reject), so `updateDb` also resolves and the
registrar is *still* called — contradicting the claim that a nonzero exit
code rejects with an external-tool error and skips the registrar.  Only a
spawn failure rejects inside the `try`, is caught, and skips the
registrar. -/
theorem c3_exit_code_behavior :
    ((updateDb "/" fsExample "java" "/proj" none 1000 (.exited 0)).registrar
        = ["/proj/sample_1000"] ∧
     (updateDb "/" fsExample "java" "/proj" none 1000 (.exited 0)).result
        = Except.ok ()) ∧
    ((updateDb "/" fsExample "java" "/proj" none 1000 (.exited 1)).registrar
        = ["/proj/sample_1000"] ∧
     (updateDb "/" fsExample "java" "/proj" none 1000 (.exited 1)).result
        = Except.ok ()) ∧
    ((updateDb "/" fsExample "java" "/proj" none 1000
        ProcOutcome.spawnError).registrar = [] ∧
     (updateDb "/" fsExample "java" "/proj" none 1000
        ProcOutcome.spawnError).result = Except.ok ()) :=
  ⟨⟨rfl, rfl⟩, ⟨rfl, rfl⟩, ⟨rfl, rfl⟩⟩

/-! ## Claim C6 -/

/-- C6 counterexample: at `sourceRoot = "/a/../b"` the sanitize call at
the start of cleanup fails with the invalid-path error, yet no error
propagates out of `cleanupOldDb` (its `catch` logs and returns), nothing
is deleted — and the build is *not* aborted: `path.join` normalizes the
database path to `/b/sample_1000`, which passes the second sanitize call,
so the external command is constructed and executed and the Session
Registrar is invoked. -/
theorem c6_counterexample :
    sanitizePath "/" "/a/../b" = Except.error JsErr.invalidPath ∧
    (cleanupOldDb "/" fsExample "/a/../b").1 = Except.ok () ∧
    (cleanupOldDb "/" fsExample "/a/../b").2 = fsExample ∧
    (updateDb "/" fsExample "java" "/a/../b" none 1000 (.exited 0)).cmd =
      some (updateDbCmdArgs "/b/sample_1000" "java" "/a/../b" none) ∧
    (updateDb "/" fsExample "java" "/a/../b" none 1000 (.exited 0)).registrar =
      ["/b/sample_1000"] :=
  ⟨rfl, rfl, rfl, rfl, rfl⟩

/-- C6 (amended): when sanitizing `sourceRoot` at the start of cleanup
fails, the error is caught inside `cleanupOldDb` (logged, not propagated)
and no deletion is performed.  The whole build is aborted only through
the separate sanitization of the database path in `updateDb`: in
particular, for every *relative* `sourceRoot`, `updateDb` rejects with
the invalid-path error before any external command is constructed or
executed, and the Session Registrar is not invoked. -/
theorem c6_sanitize_failure_aborts (cwd : String) (fs : FsNode) (l s : String)
    (c : Option String) (now : Nat) (proc : ProcOutcome) :
    (∀ e, sanitizePath cwd s = Except.error e →
      cleanupOldDb cwd fs s = (Except.ok (), fs)) ∧
    (pathIsAbsolute s = false →
      (updateDb cwd fs l s c now proc).result = Except.error JsErr.invalidPath ∧
      (updateDb cwd fs l s c now proc).cmd = none ∧
      (updateDb cwd fs l s c now proc).registrar = [] ∧
      (updateDb cwd fs l s c now proc).fsAfter = fs) := by
  constructor
  · intro e he
    simp [cleanupOldDb, he]
  · intro hrel
    have hja : pathIsAbsolute (pathJoin s ("sample_" ++ toString now)) = false :=
      pathJoin_rel_not_abs s _ hrel
    have hsj := sanitizePath_not_abs cwd _ hja
    have hclean : cleanupOldDb cwd fs s = (Except.ok (), fs) := by
      simp [cleanupOldDb, sanitizePath_not_abs cwd s hrel]
    refine ⟨?_, ?_, ?_, ?_⟩ <;> simp [updateDb, hsj, hclean]

/-- Witness for C6 (amended) at the relative source root `rel`. -/
theorem c6_sanitize_failure_aborts_witness :
    (sanitizePath "/" "rel" = Except.error JsErr.invalidPath ∧
     pathIsAbsolute "rel" = false) ∧
    cleanupOldDb "/" fsExample "rel" = (Except.ok (), fsExample) ∧
    ((updateDb "/" fsExample "java" "rel" none 1000 (.exited 0)).result
        = Except.error JsErr.invalidPath ∧
     (updateDb "/" fsExample "java" "rel" none 1000 (.exited 0)).cmd = none ∧
     (updateDb "/" fsExample "java" "rel" none 1000 (.exited 0)).registrar = [] ∧
     (updateDb "/" fsExample "java" "rel" none 1000 (.exited 0)).fsAfter
        = fsExample) :=
  ⟨⟨rfl, by decide⟩,
   (c6_sanitize_failure_aborts "/" fsExample "java" "rel" none 1000
      (.exited 0)).1 JsErr.invalidPath rfl,
   (c6_sanitize_failure_aborts "/" fsExample "java" "rel" none 1000
      (.exited 0)).2 (by decide)⟩

/-! ## Claim C4 -/

/-- C4: whenever `updateDb` reaches command construction, the no-build
invocation's argv contains `--build-mode=none` and no `--command` token,
while the `"make"` invocation's argv contains `--command` immediately
followed by `make` and no `--build-mode=none` token; both contain the
database path, `--language=<language>`, `--source-root` followed by the
source root, and `--overwrite`. -/
theorem c4_command_construction (cwd : String) (fs : FsNode) (l s : String)
    (now : Nat) (proc : ProcOutcome) :
    (∀ argv, (updateDb cwd fs l s none now proc).cmd = some argv →
      "--build-mode=none" ∈ argv ∧ "--command" ∉ argv ∧
      "--language=" ++ l ∈ argv ∧ (∃ t1 t2, argv = t1 ++ "--source-root" :: s :: t2) ∧
      "--overwrite" ∈ argv ∧
      ∃ db, sanitizePath cwd (pathJoin s ("sample_" ++ toString now)) =
          Except.ok db ∧ db ∈ argv) ∧
    (∀ argv, (updateDb cwd fs l s (some "make") now proc).cmd = some argv →
      "--build-mode=none" ∉ argv ∧
      (∃ t1 t2, argv = t1 ++ "--command" :: "make" :: t2) ∧
      "--language=" ++ l ∈ argv ∧ (∃ t1 t2, argv = t1 ++ "--source-root" :: s :: t2) ∧
      "--overwrite" ∈ argv ∧
      ∃ db, sanitizePath cwd (pathJoin s ("sample_" ++ toString now)) =
          Except.ok db ∧ db ∈ argv) := by
  constructor
  · intro argv hc
    rw [updateDb_cmd_eq] at hc
    cases hsan : sanitizePath cwd (pathJoin s ("sample_" ++ toString now)) with
    | error e => rw [hsan] at hc; cases hc
    | ok db =>
      rw [hsan] at hc
      have hargv : argv = updateDbCmdArgs db l s none := (Option.some.injEq .. ▸ hc).symm
      obtain ⟨habs_s, habs_db⟩ := sanitize_join_ok_base_abs cwd s _ db hsan
      subst hargv
      simp only [updateDbCmdArgs, jsTruthy, Bool.false_eq_true, if_false]
      refine ⟨by simp, ?_, by simp, ?_, by simp, db, rfl, by simp⟩
      · intro hmem
        simp only [List.mem_cons, List.not_mem_nil, or_false] at hmem
        rcases hmem with h|h|h|h|h|h|h|h|h
        · exact absurd h (by decide)
        · exact absurd h (by decide)
        · exact absurd h (by decide)
        · exact absurd h.symm (abs_ne_of_not_abs db "--command" habs_db (by decide))
        · exact absurd h.symm (language_flag_ne_command l)
        · exact absurd h (by decide)
        · exact absurd h.symm (abs_ne_of_not_abs s "--command" habs_s (by decide))
        · exact absurd h (by decide)
        · exact absurd h (by decide)
      · exact ⟨["codeql", "database", "create", db, "--language=" ++ l],
          ["--build-mode=none", "--overwrite"], rfl⟩
  · intro argv hc
    rw [updateDb_cmd_eq] at hc
    cases hsan : sanitizePath cwd (pathJoin s ("sample_" ++ toString now)) with
    | error e => rw [hsan] at hc; cases hc
    | ok db =>
      rw [hsan] at hc
      have hargv : argv = updateDbCmdArgs db l s (some "make") :=
        (Option.some.injEq .. ▸ hc).symm
      obtain ⟨habs_s, habs_db⟩ := sanitize_join_ok_base_abs cwd s _ db hsan
      subst hargv
      simp only [updateDbCmdArgs, jsTruthy]
      rw [if_pos (by decide)]
      refine ⟨?_, ?_, by simp, ?_, by simp, db, rfl, by simp⟩
      · intro hmem
        simp only [List.mem_cons, List.not_mem_nil, or_false] at hmem
        rcases hmem with h|h|h|h|h|h|h|h|h|h
        · exact absurd h (by decide)
        · exact absurd h (by decide)
        · exact absurd h (by decide)
        · exact absurd h.symm (abs_ne_of_not_abs db "--build-mode=none" habs_db (by decide))
        · exact absurd h.symm (language_flag_ne_buildmode l)
        · exact absurd h (by decide)
        · exact absurd h.symm (abs_ne_of_not_abs s "--build-mode=none" habs_s (by decide))
        · exact absurd h (by decide)
        · exact absurd h (by decide)
        · exact absurd h (by decide)
      · exact ⟨["codeql", "database", "create", db, "--language=" ++ l,
          "--source-root", s], ["--overwrite"], rfl⟩
      · exact ⟨["codeql", "database", "create", db, "--language=" ++ l],
          ["--command", "make", "--overwrite"], rfl⟩

def c4ArgvNoBuild : List String :=
  ["codeql", "database", "create", "/proj/sample_1000", "--language=java",
   "--source-root", "/proj", "--build-mode=none", "--overwrite"]

def c4ArgvMake : List String :=
  ["codeql", "database", "create", "/proj/sample_1000", "--language=java",
   "--source-root", "/proj", "--command", "make", "--overwrite"]

/-- Witness for C4 at `language = java`, `sourceRoot = /proj`,
timestamp 1000. -/
theorem c4_command_construction_witness :
    ((updateDb "/" fsExample "java" "/proj" none 1000 (.exited 0)).cmd =
        some c4ArgvNoBuild ∧
      ("--build-mode=none" ∈ c4ArgvNoBuild ∧ "--command" ∉ c4ArgvNoBuild ∧
       "--language=" ++ "java" ∈ c4ArgvNoBuild ∧
       (∃ t1 t2, c4ArgvNoBuild = t1 ++ "--source-root" :: "/proj" :: t2) ∧
       "--overwrite" ∈ c4ArgvNoBuild ∧
       ∃ db, sanitizePath "/" (pathJoin "/proj" ("sample_" ++ toString 1000)) =
           Except.ok db ∧ db ∈ c4ArgvNoBuild)) ∧
    ((updateDb "/" fsExample "java" "/proj" (some "make") 1000 (.exited 0)).cmd =
        some c4ArgvMake ∧
      ("--build-mode=none" ∉ c4ArgvMake ∧
       (∃ t1 t2, c4ArgvMake = t1 ++ "--command" :: "make" :: t2) ∧
       "--language=" ++ "java" ∈ c4ArgvMake ∧
       (∃ t1 t2, c4ArgvMake = t1 ++ "--source-root" :: "/proj" :: t2) ∧
       "--overwrite" ∈ c4ArgvMake ∧
       ∃ db, sanitizePath "/" (pathJoin "/proj" ("sample_" ++ toString 1000)) =
           Except.ok db ∧ db ∈ c4ArgvMake)) :=
  ⟨⟨rfl, (c4_command_construction "/" fsExample "java" "/proj" 1000
      (.exited 0)).1 c4ArgvNoBuild rfl⟩,
   ⟨rfl, (c4_command_construction "/" fsExample "java" "/proj" 1000
      (.exited 0)).2 c4ArgvMake rfl⟩⟩

/-! ## Claim C7 -/

/-- The listing step of `cleanupOldDb` fails unless the path denotes a
listable directory. -/
def listingFails : Option FsNode → Bool
  | some (.dir true _) => false
  | _ => true

/-- C7: filesystem errors during cleanup are non-fatal and never escape
the cleanup boundary.  (a) `cleanupOldDb` never rejects, on any input.
(b) If listing the source root fails, the filesystem is left untouched
and the function still returns normally.  (c) The top-level loop
processes children independently — it distributes over list append — so
one stale directory's failed deletion cannot abort its siblings.
(d) The subsequent build step behaves identically whatever filesystem
state the cleanup phase saw: the cleanup outcome never blocks it. -/
theorem c7_cleanup_errors_nonfatal (cwd p : String) (fs fs2 : FsNode)
    (l s : String) (c : Option String) (now : Nat) (proc : ProcOutcome) :
    ((cleanupOldDb cwd fs p).1 = Except.ok ()) ∧
    (∀ sp, sanitizePath cwd p = Except.ok sp →
      listingFails (findNode fs (segsOf sp)) = true →
      cleanupOldDb cwd fs p = (Except.ok (), fs)) ∧
    (∀ sp ch1 ch2, cleanupOldDbLoop sp (ch1 ++ ch2) =
      cleanupOldDbLoop sp ch1 ++ cleanupOldDbLoop sp ch2) ∧
    ((updateDb cwd fs l s c now proc).cmd =
        (updateDb cwd fs2 l s c now proc).cmd ∧
     (updateDb cwd fs l s c now proc).registrar =
        (updateDb cwd fs2 l s c now proc).registrar ∧
     (updateDb cwd fs l s c now proc).result =
        (updateDb cwd fs2 l s c now proc).result) := by
  refine ⟨?_, ?_, ?_, ?_⟩
  · cases hsan : sanitizePath cwd p with
    | error e => simp [cleanupOldDb, hsan]
    | ok sp =>
      cases hf : findNode fs (segsOf sp) with
      | none => simp [cleanupOldDb, hsan, hf]
      | some n =>
        match n with
        | .file => simp [cleanupOldDb, hsan, hf]
        | .dir r ch => cases r <;> simp [cleanupOldDb, hsan, hf]
  · intro sp hsan hlf
    cases hf : findNode fs (segsOf sp) with
    | none => simp [cleanupOldDb, hsan, hf]
    | some n =>
      match n with
      | .file => simp [cleanupOldDb, hsan, hf]
      | .dir r ch =>
        cases r with
        | true => rw [hf] at hlf; simp [listingFails] at hlf
        | false => simp [cleanupOldDb, hsan, hf]
  · intro sp ch1 ch2
    induction ch1 with
    | nil => simp [cleanupOldDbLoop]
    | cons hd t ih =>
      obtain ⟨name, node⟩ := hd
      cases hcond : (node.isDir && name.startsWith "sample_") with
      | true =>
        simp only [List.cons_append, cleanupOldDbLoop, hcond, if_true]
        match hfold : cleanupDbFolder (pathJoin sp name) node with
        | (none, ops) => simp [hfold, ih]
        | (some n', ops) => simp [hfold, ih]
      | false =>
        simp [cleanupOldDbLoop, hcond, ih]
  · cases hsan : sanitizePath cwd (pathJoin s ("sample_" ++ toString now)) with
    | error e => exact ⟨by simp [updateDb, hsan], by simp [updateDb, hsan],
        by simp [updateDb, hsan]⟩
    | ok db =>
      cases hex : executeCommand proc with
      | error e => exact ⟨by simp [updateDb, hsan, hex],
          by simp [updateDb, hsan, hex], by simp [updateDb, hsan, hex]⟩
      | ok code => exact ⟨by simp [updateDb, hsan, hex],
          by simp [updateDb, hsan, hex], by simp [updateDb, hsan, hex]⟩

/-- A source root whose single child is an unlistable directory. -/
def fsBroken : FsNode := .dir true [("broken", .dir false [])]

/-- Witness for C7: a failing listing (`/broken` is unreadable) is
swallowed and leaves the filesystem untouched. -/
theorem c7_cleanup_errors_nonfatal_witness :
    (sanitizePath "/" "/broken" = Except.ok "/broken" ∧
     listingFails (findNode fsBroken (segsOf "/broken")) = true) ∧
    cleanupOldDb "/" fsBroken "/broken" = (Except.ok (), fsBroken) :=
  ⟨⟨rfl, by decide⟩,
   (c7_cleanup_errors_nonfatal "/" "/broken" fsBroken fsBroken "java" "/proj"
      none 1000 (.exited 0)).2.1 "/broken" rfl (by decide)⟩

/-! ## The Command Entry Points (`buildCodeqlDb`) -/

/-- What `buildCodeqlDb` (src/extension.js lines 24-45, identical in
src/unnamed/part_000) did before handing over to `updateDb`. -/
structure EntryResult where
  errorShown : Bool
  updateArgs : Option (String × String × Option String)

/-- `buildCodeqlDb(uri, includeCommand)`: reject a missing/falsy
`uri.fsPath` with an error message; return silently when the language
quick-pick is dismissed (`showQuickPick` resolved `undefined`); otherwise
read the build command from the input box when `includeCommand` is set
(`showInputBox` resolves `undefined` when dismissed, the empty string on
an empty submit) and call `updateDb(language.value, uri.fsPath, command)`
— there is no check on the input-box result. -/
def buildCodeqlDb (uriFsPath : Option String) (includeCommand : Bool)
    (pick : Option String) (inputBox : Option String) : EntryResult :=
  match uriFsPath with
  | none => { errorShown := true, updateArgs := none }
  | some fsPath =>
    if fsPath = "" then { errorShown := true, updateArgs := none }
    else
      match pick with
      | none => { errorShown := false, updateArgs := none }
      | some langValue =>
        let command := if includeCommand then inputBox else none
        { errorShown := false, updateArgs := some (langValue, fsPath, command) }

/-! ## Claim C8 -/

/-- C8 counterexample: in manual mode, with a folder selected and the
language chosen, dismissing the free-text build-command input box
(`showInputBox` resolves `undefined`) does **not** abort the workflow:
`buildCodeqlDb` still invokes the Database Builder, with an undefined
command, and the resulting external command is constructed (no-build
mode).  The claim that any dismissed prompt silently aborts is therefore
false for the input box. -/
theorem c8_counterexample :
    buildCodeqlDb (some "/proj") true (some "java") none =
      { errorShown := false, updateArgs := some ("java", "/proj", none) } ∧
    (updateDb "/" fsExample "java" "/proj" none 1000 (.exited 0)).cmd =
      some c4ArgvNoBuild :=
  ⟨rfl, rfl⟩

/-- C8 (amended): dismissing the language quick-pick aborts silently (no
error message, no Database Builder call) in both entry points, and a
missing folder path is rejected with an error message before any prompt;
but dismissing the build-command input box in manual mode does *not*
abort — the workflow proceeds with an undefined command, i.e. in
no-build mode. -/
theorem c8_prompt_dismissal (fsPath : String) (includeCommand : Bool)
    (pick langValue : String) (inputBox : Option String) :
    (∀ u ib, (buildCodeqlDb u includeCommand none ib).updateArgs = none) ∧
    (buildCodeqlDb none includeCommand (some pick) inputBox =
      { errorShown := true, updateArgs := none }) ∧
    (fsPath ≠ "" →
      buildCodeqlDb (some fsPath) true (some langValue) none =
        { errorShown := false, updateArgs := some (langValue, fsPath, none) }) ∧
    (fsPath ≠ "" →
      buildCodeqlDb (some fsPath) false (some langValue) inputBox =
        { errorShown := false, updateArgs := some (langValue, fsPath, none) }) := by
  refine ⟨?_, rfl, ?_, ?_⟩
  · intro u ib
    match u with
    | none => rfl
    | some fp =>
      by_cases h : fp = ""
      · simp [buildCodeqlDb, h]
      · simp [buildCodeqlDb, h]
  · intro h
    simp [buildCodeqlDb, h]
  · intro h
    simp [buildCodeqlDb, h]

/-- Witness for C8 (amended) at `fsPath = "/proj"`. -/
theorem c8_prompt_dismissal_witness :
    (("/proj" : String) ≠ "" ∧
     buildCodeqlDb (some "/proj") true (some "java") none =
       { errorShown := false, updateArgs := some ("java", "/proj", none) }) ∧
    buildCodeqlDb (some "/proj") false (some "java") (some "make") =
      { errorShown := false, updateArgs := some ("java", "/proj", none) } :=
  ⟨⟨by decide,
    (c8_prompt_dismissal "/proj" true "java" "java" (some "make")).2.2.1
      (by decide)⟩,
   (c8_prompt_dismissal "/proj" true "java" "java" (some "make")).2.2.2
     (by decide)⟩

/-! ## Claim C10 -/

/-- C10: submitting an empty string in the build-command input box does
not abort the workflow — `buildCodeqlDb` passes the empty string through
to the Database Builder — and since `if (command)` tests JavaScript
truthiness, the empty string falls into the no-build branch: the whole
run of `updateDb` with command `""` is identical to a run with no
command at all, and in particular the constructed argv carries
`--build-mode=none`. -/
theorem c10_empty_command_no_build (cwd : String) (fs : FsNode)
    (l s fsPath langValue : String) (now : Nat) (proc : ProcOutcome) :
    (fsPath ≠ "" →
      buildCodeqlDb (some fsPath) true (some langValue) (some "") =
        { errorShown := false,
          updateArgs := some (langValue, fsPath, some "") }) ∧
    updateDb cwd fs l s (some "") now proc = updateDb cwd fs l s none now proc ∧
    (∀ db, updateDbCmdArgs db l s (some "") = updateDbCmdArgs db l s none ∧
      "--build-mode=none" ∈ updateDbCmdArgs db l s (some "")) := by
  refine ⟨?_, ?_, ?_⟩
  · intro h
    simp [buildCodeqlDb, h]
  · rfl
  · intro db
    refine ⟨rfl, ?_⟩
    simp [updateDbCmdArgs, jsTruthy]

/-- Witness for C10 at concrete inputs. -/
theorem c10_empty_command_no_build_witness :
    (("/proj" : String) ≠ "" ∧
     buildCodeqlDb (some "/proj") true (some "java") (some "") =
       { errorShown := false, updateArgs := some ("java", "/proj", some "") }) ∧
    updateDb "/" fsExample "java" "/proj" (some "") 1000 (.exited 0) =
      updateDb "/" fsExample "java" "/proj" none 1000 (.exited 0) ∧
    ("--build-mode=none" ∈ updateDbCmdArgs "/proj/sample_1000" "java" "/proj"
      (some "")) :=
  ⟨⟨by decide,
    (c10_empty_command_no_build "/" fsExample "java" "/proj" "/proj" "java"
      1000 (.exited 0)).1 (by decide)⟩,
   (c10_empty_command_no_build "/" fsExample "java" "/proj" "/proj" "java"
      1000 (.exited 0)).2.1,
   ((c10_empty_command_no_build "/" fsExample "java" "/proj" "/proj" "java"
      1000 (.exited 0)).2.2 "/proj/sample_1000").2⟩

/-! ## Shell word splitting -/

theorem strMk_data (s : String) : (⟨s.data⟩ : String) = s := rfl

/-- Join words with single spaces (the canonical command line whose shell
field splitting returns exactly those words). -/
def mkWords : List String → String
  | [] => ""
  | [w] => w
  | w :: t :: rest => w ++ " " ++ mkWords (t :: rest)

theorem shellSplit_mkWords (ws : List String)
    (h : ∀ w ∈ ws, w.data ≠ [] ∧ ' ' ∉ w.data) :
    shellSplit (mkWords ws) = ws := by
  induction ws with
  | nil => rfl
  | cons w tws ih =>
    match tws with
    | [] =>
      have hw := h w (by simp)
      show shellSplit w = [w]
      unfold shellSplit
      rw [splitOnChar_word ' ' w.data hw.2]
      simp [hw.1, strMk_data]
    | t :: rest =>
      have hw := h w (by simp)
      have hrest : ∀ v ∈ t :: rest, v.data ≠ [] ∧ ' ' ∉ v.data :=
        fun v hv => h v (List.mem_cons_of_mem w hv)
      have ih2 := ih hrest
      show shellSplit (w ++ " " ++ mkWords (t :: rest)) = w :: t :: rest
      have hdata : (w ++ " " ++ mkWords (t :: rest)).data
          = w.data ++ ' ' :: (mkWords (t :: rest)).data := by
        have hsp : (" " : String).data = [' '] := rfl
        rw [strData_append, strData_append, hsp, List.append_assoc]
        rfl
      have ih3 : ((splitOnChar ' ' (mkWords (t :: rest)).data).filter
            (fun v => v ≠ [])).map (fun v => (⟨v⟩ : String)) = t :: rest := ih2
      unfold shellSplit
      rw [hdata, splitOnChar_word_append ' ' w.data _ hw.2]
      have hfilter : (w.data :: splitOnChar ' '
              (mkWords (t :: rest)).data).filter (fun v => v ≠ [])
          = w.data :: (splitOnChar ' '
              (mkWords (t :: rest)).data).filter (fun v => v ≠ []) := by
        simp [List.filter_cons, hw.1]
      rw [hfilter, List.map_cons, strMk_data, ih3]

/-- Characters that the POSIX shell does not pass through verbatim inside
an unquoted word (whitespace, quoting, expansion and control operators).
A command line whose fields avoid all of them is split purely at the
spaces between fields, which is what `shellSplit` computes. -/
def shellMeta : List Char :=
  [' ', '\t', '\n', '"', Char.ofNat 39, Char.ofNat 96, '$', '\\', '|', '&',
   ';', '<', '>', '(', ')', '*', '?', '[', ']', '#', '~']

/-- A string the shell passes through as a single unquoted field. -/
def shellSafe (t : String) : Bool :=
  t.data ≠ [] && t.data.all (fun ch => decide (ch ∉ shellMeta))

theorem shellSafe_spec (t : String) (h : shellSafe t = true) :
    t.data ≠ [] ∧ ' ' ∉ t.data := by
  simp only [shellSafe, Bool.and_eq_true, decide_eq_true_eq, List.all_eq_true]
  at h
  refine ⟨h.1, fun hsp => ?_⟩
  exact h.2 ' ' hsp (by simp [shellMeta])

theorem shellSafe_ne_empty (t : String) (h : shellSafe t = true) : t ≠ "" := by
  intro he
  exact (shellSafe_spec t h).1 (congrArg String.data he)

theorem shellSafe_append_token (a : String) (b : String)
    (ha : a.data ≠ []) (hsa : ' ' ∉ a.data) (hb : ' ' ∉ b.data) :
    (a ++ b).data ≠ [] ∧ ' ' ∉ (a ++ b).data := by
  rw [strData_append]
  constructor
  · intro hx
    exact ha (List.append_eq_nil.mp hx).1
  · intro hx
    rcases List.mem_append.mp hx with hx | hx
    · exact hsa hx
    · exact hb hx

/-- The manual-mode command string of part_000 is the space-joined word
list. -/
theorem updateDbCmdStr_some (db l s c : String) (hc : c ≠ "") :
    updateDbCmdStr db l s (some c) =
      mkWords ["codeql", "database", "create", db, "--language=" ++ l,
        "--source-root", s, "--command", c, "--overwrite"] := by
  have ht : jsTruthy (some c) = true := by simp [jsTruthy, hc]
  simp only [updateDbCmdStr, ht, if_true, Option.getD_some]
  have e1 : ("codeql database create " : String) =
      "codeql" ++ " " ++ "database" ++ " " ++ "create" ++ " " := by decide
  have e2 : (" --language=" : String) = " " ++ "--language=" := by decide
  have e3 : (" --source-root " : String) = " " ++ "--source-root" ++ " " := by
    decide
  have e4 : (" --command " : String) = " " ++ "--command" ++ " " := by decide
  have e5 : (" --overwrite" : String) = " " ++ "--overwrite" := by decide
  rw [e1, e2, e3, e4, e5]
  simp only [mkWords]
  apply String.ext
  simp [strData_append, List.append_assoc]

/-- The no-build command string of part_000 is the space-joined word
list. -/
theorem updateDbCmdStr_none (db l s : String) :
    updateDbCmdStr db l s none =
      mkWords ["codeql", "database", "create", db, "--language=" ++ l,
        "--source-root", s, "--build-mode=none", "--overwrite"] := by
  simp only [updateDbCmdStr, jsTruthy, Bool.false_eq_true, if_false]
  have e1 : ("codeql database create " : String) =
      "codeql" ++ " " ++ "database" ++ " " ++ "create" ++ " " := by decide
  have e2 : (" --language=" : String) = " " ++ "--language=" := by decide
  have e3 : (" --source-root " : String) = " " ++ "--source-root" ++ " " := by
    decide
  have e5 : (" --build-mode=none --overwrite" : String) =
      " " ++ "--build-mode=none" ++ " " ++ "--overwrite" := by decide
  rw [e1, e2, e3, e5]
  simp only [mkWords]
  apply String.ext
  simp [strData_append, List.append_assoc]

/-- The extension.js argv in manual mode (JavaScript truthiness reduced
away). -/
theorem updateDbCmdArgs_some (db l s c : String) (hc : c ≠ "") :
    updateDbCmdArgs db l s (some c) =
      ["codeql", "database", "create", db, "--language=" ++ l,
       "--source-root", s, "--command", c, "--overwrite"] := by
  have ht : jsTruthy (some c) = true := by simp [jsTruthy, hc]
  simp [updateDbCmdArgs, ht]

/-! ## Claim C5 -/

/-- C5 counterexample: the repository does *not* always pass the tool a
discrete argument list.  The part_000 variant concatenates the fields
into one string and launches it with a shell: a build command containing
a space (`make all`) reaches the tool as two separate tokens, while the
extension.js `execFile` variant delivers it as the single token the claim
demands.  So "every invocation" is false — only the execFile variant has
the claimed property. -/
theorem c5_counterexample :
    "make all" ∈ execFileDelivered
      (updateDbCmdArgs "/proj/sample_1000" "java" "/proj" (some "make all")) ∧
    "make all" ∉ spawnShellDelivered
      (updateDbCmdStr "/proj/sample_1000" "java" "/proj" (some "make all")) ∧
    "make" ∈ spawnShellDelivered
      (updateDbCmdStr "/proj/sample_1000" "java" "/proj" (some "make all")) ∧
    "all" ∈ spawnShellDelivered
      (updateDbCmdStr "/proj/sample_1000" "java" "/proj" (some "make all")) := by
  refine ⟨by decide, by decide, by decide, by decide⟩

/-- C5 (amended): in the extension.js variant every invocation passes the
program name and each argument as a discrete argv entry through
`execFile`, with no shell: whatever characters a field contains — the
user build command included — it is delivered to the tool as exactly one
token, and the program is the fixed `codeql`. -/
theorem c5_execfile_discrete_tokens (db l s c : String) (hc : c ≠ "") :
    execFileDelivered (updateDbCmdArgs db l s (some c)) =
      updateDbCmdArgs db l s (some c) ∧
    c ∈ execFileDelivered (updateDbCmdArgs db l s (some c)) ∧
    s ∈ execFileDelivered (updateDbCmdArgs db l s (some c)) ∧
    db ∈ execFileDelivered (updateDbCmdArgs db l s (some c)) ∧
    ("--language=" ++ l) ∈ execFileDelivered (updateDbCmdArgs db l s (some c)) ∧
    (execFileDelivered (updateDbCmdArgs db l s (some c))).head? =
      some "codeql" := by
  rw [execFileDelivered, updateDbCmdArgs_some db l s c hc]
  refine ⟨rfl, by simp, by simp, by simp, by simp, rfl⟩

/-- Witness for C5 (amended): even a command with a space (`make all`) is
one argv token under `execFile`. -/
theorem c5_execfile_discrete_tokens_witness :
    (("make all" : String) ≠ "" ∧
     "make all" ∈ execFileDelivered
       (updateDbCmdArgs "/proj/sample_1000" "java" "/proj" (some "make all"))) ∧
    (execFileDelivered (updateDbCmdArgs "/proj/sample_1000" "java" "/proj"
        (some "make all"))).head? = some "codeql" :=
  ⟨⟨by decide,
    (c5_execfile_discrete_tokens "/proj/sample_1000" "java" "/proj" "make all"
      (by decide)).2.1⟩,
   (c5_execfile_discrete_tokens "/proj/sample_1000" "java" "/proj" "make all"
      (by decide)).2.2.2.2.2⟩

/-! ## Claim C9 -/

/-- C9 counterexample: the two variants are not equivalent.  With the
build command `make all` the extension.js variant delivers
`... --command "make all" ...` as one token while part_000's shell line
splits it into `make` and `all` — different command content.  And after a
failed external command (exit code 1) the extension.js variant still
invokes the Session Registrar (its promise was resolved by the `exit`
listener), while part_000 throws a ReferenceError in its `exit` listener
and hangs, never invoking the registrar — different failure behavior. -/
theorem c9_counterexample :
    spawnShellDelivered
        (updateDbCmdStr "/proj/sample_1000" "java" "/proj" (some "make all")) ≠
      execFileDelivered
        (updateDbCmdArgs "/proj/sample_1000" "java" "/proj" (some "make all")) ∧
    (updateDb "/" fsExample "java" "/proj" (some "make all") 1000
        (.exited 1)).registrar = ["/proj/sample_1000"] ∧
    (updateDbB "/" fsExample "java" "/proj" (some "make all") 1000
        (.exited 1)).registrar = [] ∧
    (updateDbB "/" fsExample "java" "/proj" (some "make all") 1000
        (.exited 1)).hangs = true :=
  ⟨by decide, rfl, rfl, rfl⟩

/-- C9 (amended): for inputs whose fields are shell-safe (nonempty, no
whitespace, no shell metacharacters), the two variants do invoke the
external tool with the same token content, in both modes; and on a
successful external process (exit code 0) both resolve, both invoke the
Session Registrar exactly once with the same database path, and both
leave the same filesystem.  (Their behavior after a failed command
differs, as the counterexample records.) -/
theorem c9_variants_agree (cwd : String) (fs : FsNode) (l s c db : String)
    (now : Nat)
    (hsan : sanitizePath cwd (pathJoin s ("sample_" ++ toString now)) =
      Except.ok db)
    (hl : shellSafe l = true) (hs : shellSafe s = true)
    (hc : shellSafe c = true) (hdb : shellSafe db = true) :
    spawnShellDelivered (updateDbCmdStr db l s (some c)) =
      execFileDelivered (updateDbCmdArgs db l s (some c)) ∧
    spawnShellDelivered (updateDbCmdStr db l s none) =
      execFileDelivered (updateDbCmdArgs db l s none) ∧
    (updateDbB cwd fs l s (some c) now (.exited 0)).cmdStr =
      some (updateDbCmdStr db l s (some c)) ∧
    (updateDb cwd fs l s (some c) now (.exited 0)).cmd =
      some (updateDbCmdArgs db l s (some c)) ∧
    (updateDb cwd fs l s (some c) now (.exited 0)).registrar = [db] ∧
    (updateDbB cwd fs l s (some c) now (.exited 0)).registrar = [db] ∧
    (updateDb cwd fs l s (some c) now (.exited 0)).fsAfter =
      (updateDbB cwd fs l s (some c) now (.exited 0)).fsAfter ∧
    (updateDb cwd fs l s (some c) now (.exited 0)).result = Except.ok () ∧
    (updateDbB cwd fs l s (some c) now (.exited 0)).result = Except.ok () := by
  have hcne := shellSafe_ne_empty c hc
  have hsplit_some : shellSplit (updateDbCmdStr db l s (some c)) =
      ["codeql", "database", "create", db, "--language=" ++ l,
       "--source-root", s, "--command", c, "--overwrite"] := by
    rw [updateDbCmdStr_some db l s c hcne]
    apply shellSplit_mkWords
    intro w hw
    simp only [List.mem_cons, List.not_mem_nil, or_false] at hw
    rcases hw with h|h|h|h|h|h|h|h|h|h <;> subst h
    · exact ⟨by decide, by decide⟩
    · exact ⟨by decide, by decide⟩
    · exact ⟨by decide, by decide⟩
    · exact shellSafe_spec _ hdb
    · exact shellSafe_append_token "--language=" _ (by decide) (by decide)
        (shellSafe_spec _ hl).2
    · exact ⟨by decide, by decide⟩
    · exact shellSafe_spec _ hs
    · exact ⟨by decide, by decide⟩
    · exact shellSafe_spec _ hc
    · exact ⟨by decide, by decide⟩
  have hsplit_none : shellSplit (updateDbCmdStr db l s none) =
      ["codeql", "database", "create", db, "--language=" ++ l,
       "--source-root", s, "--build-mode=none", "--overwrite"] := by
    rw [updateDbCmdStr_none db l s]
    apply shellSplit_mkWords
    intro w hw
    simp only [List.mem_cons, List.not_mem_nil, or_false] at hw
    rcases hw with h|h|h|h|h|h|h|h|h <;> subst h
    · exact ⟨by decide, by decide⟩
    · exact ⟨by decide, by decide⟩
    · exact ⟨by decide, by decide⟩
    · exact shellSafe_spec _ hdb
    · exact shellSafe_append_token "--language=" _ (by decide) (by decide)
        (shellSafe_spec _ hl).2
    · exact ⟨by decide, by decide⟩
    · exact shellSafe_spec _ hs
    · exact ⟨by decide, by decide⟩
    · exact ⟨by decide, by decide⟩
  refine ⟨?_, ?_, ?_, ?_, ?_, ?_, ?_, ?_, ?_⟩
  · show shellSplit (updateDbCmdStr db l s (some c)) =
      updateDbCmdArgs db l s (some c)
    rw [hsplit_some, updateDbCmdArgs_some db l s c hcne]
  · show shellSplit (updateDbCmdStr db l s none) =
      updateDbCmdArgs db l s none
    rw [hsplit_none]
    simp [updateDbCmdArgs, jsTruthy]
  · simp [updateDbB, hsan]
  · simp [updateDb, hsan, executeCommand]
  · simp [updateDb, hsan, executeCommand]
  · simp [updateDbB, hsan]
  · simp [updateDb, updateDbB, hsan, executeCommand]
  · simp [updateDb, hsan, executeCommand]
  · simp [updateDbB, hsan]

/-- Witness for C9 (amended) at shell-safe concrete inputs. -/
theorem c9_variants_agree_witness :
    (sanitizePath "/" (pathJoin "/proj" ("sample_" ++ toString 1000)) =
        Except.ok "/proj/sample_1000" ∧
      shellSafe "java" = true ∧ shellSafe "/proj" = true ∧
      shellSafe "make" = true ∧ shellSafe "/proj/sample_1000" = true) ∧
    (spawnShellDelivered (updateDbCmdStr "/proj/sample_1000" "java" "/proj"
        (some "make")) =
      execFileDelivered (updateDbCmdArgs "/proj/sample_1000" "java" "/proj"
        (some "make")) ∧
     (updateDb "/" fsExample "java" "/proj" (some "make") 1000
        (.exited 0)).registrar = ["/proj/sample_1000"] ∧
     (updateDbB "/" fsExample "java" "/proj" (some "make") 1000
        (.exited 0)).registrar = ["/proj/sample_1000"]) :=
  ⟨⟨rfl, by decide, by decide, by decide, by decide⟩,
   (c9_variants_agree "/" fsExample "java" "/proj" "make" "/proj/sample_1000"
      1000 rfl (by decide) (by decide) (by decide) (by decide)).1,
   (c9_variants_agree "/" fsExample "java" "/proj" "make" "/proj/sample_1000"
      1000 rfl (by decide) (by decide) (by decide) (by decide)).2.2.2.2.1,
   (c9_variants_agree "/" fsExample "java" "/proj" "make" "/proj/sample_1000"
      1000 rfl (by decide) (by decide) (by decide) (by decide)).2.2.2.2.2.1⟩

end CodeqlPlayground
